import Mathlib

/-!
Verification development for the file-based stream engine
(`airbyte_cdk/sources/file_based/file_based_stream.py`).

The Python class `FileBasedStream` is embedded shallowly:

* pure data (remote files, stream configuration, the discovery policy) become
  Lean structures;
* the external collaborators (the stream reader, the per-format parsers, the
  validation-policy predicate, the schema merger, the type-mapping converter
  and the raw-config constructor) are passed in as explicit function
  parameters, or, where the behaviour is fixed by the spec's interface
  section, modelled from the spec;
* the instance-level mutable state (`_catalog_schema`, the `@cache` memo on
  `get_json_schema` and `list_files`) becomes explicit state passing on a
  `FileBasedStream` structure;
* the `asyncio` bounded-concurrency loop of `_infer_schema` becomes a
  deterministic transition loop in which each `asyncio.wait` round completes
  the oldest in-flight task; the peak size of the in-flight set is tracked
  alongside the result.
-/

open scoped List

/-- File-type tag of a remote file (`remote_file.FileType`). -/
inductive FileType where
  | Avro
  | Csv
  | Jsonl
  | Parquet
deriving DecidableEq, Repr

/-- A remote file as listed by the catalog: URI, last-modified instant and
file-type tag (`remote_file.RemoteFile`). -/
structure RemoteFile where
  uri : String
  last_modified : Int
  file_type : FileType
deriving DecidableEq, Repr

/-- A schema: a finite mapping from field name to a field-type descriptor,
modelled as an association list.  The empty Python dict `{}` is `[]`. -/
abbrev Schema := List (String × String)

/-- A raw record produced by a parser: a field-name-to-value mapping. -/
abbrev Record := List (String × String)

/-- Raw untyped stream configuration, as handed to `__init__`. -/
abbrev RawConfig := List (String × String)

/-- The typed stream configuration (`FileBasedStreamConfig`): the fields the
stream code reads.  The class itself lives outside the embedded file; only
the fields dereferenced by `file_based_stream.py` are modelled. -/
structure FileBasedStreamConfig where
  name : String
  globs : List String
  file_type : FileType
  input_schema : Option (List (String × String))
  primary_key : Option (List String)
  validation_policy : String
deriving DecidableEq, Repr

/-- The discovery policy (`AbstractDiscoveryPolicy`): the two bounds the
stream code reads. -/
structure AbstractDiscoveryPolicy where
  max_n_files_for_schema_inference : Nat
  n_concurrent_requests : Nat
deriving DecidableEq, Repr

/-- Stream state as consumed by `list_files_for_this_sync`: an optional
`start` cursor instant. -/
structure StreamState where
  start : Option Int
deriving DecidableEq, Repr

/-- A per-format parser (`FileTypeParser`), viewed through the two methods the
stream invokes: single-file schema inference (which may fail with a
parser-specific error) and record parsing. -/
structure FileTypeParser where
  infer_schema : RemoteFile → Except String Schema
  parse_records : RemoteFile → List Record

/-- The state of one `FileBasedStream` instance: the parsed config, the
discovery policy, `_catalog_schema` (an `Option` distinguishing Python
`None` from a present dict), the two `@cache` memo slots, and counters for
how many times the stream reader was asked to list files and how many times
the inference path was run. -/
structure FileBasedStream where
  config : FileBasedStreamConfig
  discovery_policy : AbstractDiscoveryPolicy
  catalogSchema : Option Schema
  jsonSchemaCache : Option Schema
  listFilesCache : Option (List RemoteFile)
  nReaderCalls : Nat
  nInferRuns : Nat
deriving DecidableEq, Repr

/-- `FileBasedStream.__init__` (lines 37-49): construct the config object from
the raw mapping, wrapping any constructor failure in a
`ConfigValidationError`; on success set `_catalog_schema = {}` (the Python
empty dict, i.e. `some []`, not `None`).  The external
`FileBasedStreamConfig` constructor is a parameter. -/
def mkFileBasedStream (parseConfig : RawConfig → Except String FileBasedStreamConfig)
    (raw : RawConfig) (policy : AbstractDiscoveryPolicy) :
    Except String FileBasedStream :=
  match parseConfig raw with
  | .error _ => .error "Error creating stream config object."
  | .ok cfg =>
      .ok { config := cfg
            discovery_policy := policy
            catalogSchema := some []
            jsonSchemaCache := none
            listFilesCache := none
            nReaderCalls := 0
            nInferRuns := 0 }

/-- Python truthiness of `self.config.input_schema` (line 94): `None` and the
empty mapping are both falsy. -/
def inputSchemaTruthy : Option (List (String × String)) → Bool
  | none => false
  | some m => !m.isEmpty

/-- Modelled from the spec: the external stream reader's
`list_matching_files(globs, min_modified)` (the `AbstractFileBasedStreamReader`
is not part of the embedded file).  Per the interface section of the spec it
enumerates the catalog files matching the globs, and, when a minimum
modification timestamp is supplied, keeps only files modified at or after
it.  Glob matching is a parameter. -/
def list_matching_files (catalog : List RemoteFile)
    (globMatch : List String → RemoteFile → Bool)
    (globs : List String) (minModified : Option Int) : List RemoteFile :=
  (catalog.filter (globMatch globs)).filter fun f =>
    match minModified with
    | none => true
    | some t => decide (t ≤ f.last_modified)

/-- `_get_datetime_from_stream_state` (lines 125-127): the source body is
`# TODO: implement me` followed by `return None`, so every stream state is
mapped to `none`. -/
def get_datetime_from_stream_state (_streamState : Option StreamState) : Option Int :=
  none

/-- `list_files_for_this_sync` (lines 113-123): ask the reader for the files
matching the stream's globs, passing `_get_datetime_from_stream_state` of the
stream state as the minimum-modification bound. -/
def list_files_for_this_sync (catalog : List RemoteFile)
    (globMatch : List String → RemoteFile → Bool)
    (st : FileBasedStream) (streamState : Option StreamState) : List RemoteFile :=
  list_matching_files catalog globMatch st.config.globs
    (get_datetime_from_stream_state streamState)

/-- Inner loop of `read_records` (lines 71-75): for each record the parser
produced, drop it with a diagnostic when it fails the validation policy,
otherwise yield it.  Returns (yielded records, diagnostics for dropped
records). -/
def filterRecordsFile (passes : String → Record → Schema → Bool)
    (policy : String) (schema : Schema) : List Record → List Record × List Record
  | [] => ([], [])
  | r :: rs =>
      let rest := filterRecordsFile passes policy schema rs
      if passes policy r schema then (r :: rest.1, rest.2)
      else (rest.1, r :: rest.2)

/-- Outer loop of `read_records` (lines 70-75): iterate the files in listing
order, concatenating the per-file yielded records and diagnostics. -/
def readLoop (passes : String → Record → Schema → Bool)
    (parse : RemoteFile → List Record)
    (policy : String) (schema : Schema) : List RemoteFile → List Record × List Record
  | [] => ([], [])
  | f :: fs =>
      let here := filterRecordsFile passes policy schema (parse f)
      let rest := readLoop passes parse policy schema fs
      (here.1 ++ rest.1, here.2 ++ rest.2)

/-- `read_records` (lines 55-75): read `_catalog_schema`; raise
`MissingSchemaError` when it is `None`; otherwise obtain the parser for the
configured file type and run the validation-filtered loop over
`list_files_for_this_sync`. -/
def read_records (parsers : FileType → FileTypeParser)
    (passes : String → Record → Schema → Bool)
    (catalog : List RemoteFile) (globMatch : List String → RemoteFile → Bool)
    (st : FileBasedStream) (streamState : Option StreamState) :
    Except String (List Record × List Record) :=
  match st.catalogSchema with
  | none => .error "Expected `json_schema` in the configured catalog but it is missing."
  | some schema =>
      .ok (readLoop passes (parsers st.config.file_type).parse_records
            st.config.validation_policy schema
            (list_files_for_this_sync catalog globMatch st streamState))

/-- One insertion step of the stable descending sort: skip over files strictly
more recent than `f`, so that among equal `last_modified` keys the earlier
listed file stays first. -/
def insertDesc (f : RemoteFile) : List RemoteFile → List RemoteFile
  | [] => [f]
  | g :: gs =>
      if f.last_modified < g.last_modified then g :: insertDesc f gs
      else f :: g :: gs

/-- Stable sort by `last_modified` descending, the function computed by
Python's `sorted(files, key=lambda x: x.last_modified, reverse=True)`
(Python's sort is stable and `reverse=True` preserves stability on ties). -/
def sortDesc : List RemoteFile → List RemoteFile
  | [] => []
  | f :: fs => insertDesc f (sortDesc fs)

/-- The sampling step of `get_json_schema` (lines 99-102): when more files are
listed than `max_n_files_for_schema_inference`, keep the first
`max_n_files_for_schema_inference` files of the stable descending sort;
otherwise keep the listing unchanged. -/
def selectFilesForInference (maxN : Nat) (files : List RemoteFile) : List RemoteFile :=
  if maxN < files.length then (sortDesc files).take maxN else files

/-- `_infer_file_schema` (lines 157-161): run the parser's single-file
inference, wrapping any failure in a `SchemaInferenceError` naming the file's
URI. -/
def inferFileSchema (parserInfer : RemoteFile → Except String Schema)
    (f : RemoteFile) : Except String Schema :=
  match parserInfer f with
  | .ok s => .ok s
  | .error _ => .error ("Error inferring schema for file: " ++ f.uri)

/-- The task-launch loop of `_infer_schema` (lines 146-148):
`while len(pending_tasks) <= n_concurrent_requests and (file := next(files, None))`
append the next file to the in-flight queue.  Returns the new in-flight queue
and the files not yet started. -/
def refill (n : Nat) : List RemoteFile → List RemoteFile → List RemoteFile × List RemoteFile
  | pending, [] => (pending, [])
  | pending, f :: fs =>
      if pending.length ≤ n then refill n (pending ++ [f]) fs
      else (pending, f :: fs)

/-- The body of `_infer_schema` (lines 133-155) as a deterministic transition
loop.  State: files not yet started, in-flight queue (oldest first), the
running merged schema, and the peak in-flight count observed so far.  Each
round refills the in-flight queue, records its size, then completes the
oldest task: a failed task propagates its `SchemaInferenceError`, a
successful one is merged into the accumulator.  `fuel` bounds the rounds;
`remaining.length + pending.length` rounds always suffice since each round
completes exactly one task. -/
def inferLoopAux (n : Nat) (merge : Schema → Schema → Schema)
    (res : RemoteFile → Except String Schema) :
    Nat → List RemoteFile → List RemoteFile → Schema → Nat →
    Except String Schema × Nat
  | fuel, remaining, pending, base, peak =>
      if remaining.isEmpty && pending.isEmpty then (.ok base, peak)
      else
        match fuel with
        | 0 => (.ok base, peak)
        | fuel' + 1 =>
            let rp := refill n pending remaining
            let peak' := max peak rp.1.length
            match rp.1 with
            | [] => (.ok base, peak')
            | t :: rest =>
                match res t with
                | .error e => (.error e, peak')
                | .ok s => inferLoopAux n merge res fuel' rp.2 rest (merge base s) peak'

/-- `infer_schema` / `_infer_schema` on a list of files: start with the empty
schema and an empty in-flight queue; returns the result together with the
peak number of simultaneously in-flight per-file inference operations. -/
def inferSchemaRun (n : Nat) (merge : Schema → Schema → Schema)
    (parserInfer : RemoteFile → Except String Schema)
    (files : List RemoteFile) : Except String Schema × Nat :=
  inferLoopAux n merge (inferFileSchema parserInfer) files.length files [] [] 0

/-- Sequential characterisation of the inference loop: fold the per-file
results (in completion order, which the deterministic loop fixes to launch
order) into the accumulator, stopping at the first failure. -/
def inferSequential (merge : Schema → Schema → Schema)
    (res : RemoteFile → Except String Schema) :
    Schema → List RemoteFile → Except String Schema
  | base, [] => .ok base
  | base, f :: fs =>
      match res f with
      | .error e => .error e
      | .ok s => inferSequential merge res (merge base s) fs

/-- `list_files` (lines 105-111) with its `@cache` memo made explicit: the
reader's listing for the stream's globs is a parameter (fixed catalog state);
a hit returns the memo unchanged, a miss stores the listing and counts one
reader invocation. -/
def list_files (readerFiles : List RemoteFile) (st : FileBasedStream) :
    List RemoteFile × FileBasedStream :=
  match st.listFilesCache with
  | some fs => (fs, st)
  | none => (readerFiles,
      { st with listFilesCache := some readerFiles, nReaderCalls := st.nReaderCalls + 1 })

/-- `get_json_schema` (lines 85-103) with its `@cache` memo made explicit.
On a memo miss: if the configured `input_schema` is truthy return its
conversion (`type_mapping_to_jsonschema`, a parameter `conv`) at once;
otherwise list the files, apply the sampling truncation, and run the
bounded-concurrency inference, counting one inference run.  Only a
successful result is memoized (a raised error caches nothing). -/
def get_json_schema (conv : List (String × String) → Schema)
    (merge : Schema → Schema → Schema)
    (parsers : FileType → FileTypeParser)
    (readerFiles : List RemoteFile)
    (st : FileBasedStream) : Except String Schema × FileBasedStream :=
  match st.jsonSchemaCache with
  | some s => (.ok s, st)
  | none =>
      if inputSchemaTruthy st.config.input_schema then
        let s := conv (st.config.input_schema.getD [])
        (.ok s, { st with jsonSchemaCache := some s })
      else
        let filesSt := list_files readerFiles st
        let files2 := selectFilesForInference
          st.discovery_policy.max_n_files_for_schema_inference filesSt.1
        let st2 := { filesSt.2 with nInferRuns := filesSt.2.nInferRuns + 1 }
        match (inferSchemaRun st.discovery_policy.n_concurrent_requests merge
                (parsers st.config.file_type).infer_schema files2).1 with
        | .error e => (.error e, st2)
        | .ok s => (.ok s, { st2 with jsonSchemaCache := some s })

/-! Concrete fixtures used by counterexamples and witnesses. -/

/-- A file last modified at instant 9. -/
def fileA : RemoteFile := { uri := "s3://bucket/a.csv", last_modified := 9, file_type := .Csv }

/-- A file last modified at instant 10. -/
def fileB : RemoteFile := { uri := "s3://bucket/b.csv", last_modified := 10, file_type := .Csv }

/-- A file last modified at instant 11. -/
def fileC : RemoteFile := { uri := "s3://bucket/c.csv", last_modified := 11, file_type := .Csv }

/-- A second file at instant 10, listed after `fileB`: a modification-time tie. -/
def fileD : RemoteFile := { uri := "s3://bucket/d.csv", last_modified := 10, file_type := .Csv }

/-- A csv stream configuration with no user-declared schema. -/
def cfgCsv : FileBasedStreamConfig :=
  { name := "s", globs := ["*.csv"], file_type := .Csv, input_schema := none,
    primary_key := none, validation_policy := "emit_record" }

/-- A configuration whose declared input schema is the empty mapping `{}`
(present but falsy in Python). -/
def cfgEmptyInput : FileBasedStreamConfig :=
  { cfgCsv with input_schema := some [] }

/-- A configuration with a non-empty user-declared input schema. -/
def cfgDeclared : FileBasedStreamConfig :=
  { cfgCsv with input_schema := some [("x", "string")] }

/-- A discovery policy: sample at most 10 files, 1 concurrent request. -/
def policyOne : AbstractDiscoveryPolicy :=
  { max_n_files_for_schema_inference := 10, n_concurrent_requests := 1 }

/-- The stream state right after `__init__` for a given config and policy:
`_catalog_schema` is the empty dict, both memo slots empty. -/
def freshStream (cfg : FileBasedStreamConfig) (policy : AbstractDiscoveryPolicy) :
    FileBasedStream :=
  { config := cfg, discovery_policy := policy, catalogSchema := some [],
    jsonSchemaCache := none, listFilesCache := none, nReaderCalls := 0, nInferRuns := 0 }

/-- A parser family whose inference always yields `{a: string}` and whose
record parsing yields one record per file. -/
def parsersA : FileType → FileTypeParser := fun _ =>
  { infer_schema := fun _ => .ok [("a", "string")],
    parse_records := fun _ => [[("a", "1")]] }

/-- A validation-policy predicate accepting every record. -/
def passesAll : String → Record → Schema → Bool := fun _ _ _ => true

/-- A stand-in schema merger for concrete runs. -/
def mergeKeep : Schema → Schema → Schema := fun a b => a ++ b

/-- A stand-in `type_mapping_to_jsonschema` for concrete runs. -/
def convId : List (String × String) → Schema := fun m => m

/-- A per-file inference that fails exactly on `fileB`. -/
def pInferBad : RemoteFile → Except String Schema := fun f =>
  if f.uri = fileB.uri then .error "malformed csv" else .ok [("a", "string")]

/-- A raw-config constructor that always succeeds with `cfgCsv`. -/
def parseOkConfig : RawConfig → Except String FileBasedStreamConfig := fun _ => .ok cfgCsv

/-- A raw-config constructor that always fails (structural mismatch). -/
def parseBadConfig : RawConfig → Except String FileBasedStreamConfig :=
  fun _ => .error "1 validation error for FileBasedStreamConfig"

/-! Helper lemmas (shared; none of them is a claim theorem). -/

/-- The per-file filter loop yields exactly the records passing the policy and
a diagnostic entry for exactly the records failing it. -/
theorem filterRecordsFile_eq (passes : String → Record → Schema → Bool)
    (policy : String) (schema : Schema) (rs : List Record) :
    filterRecordsFile passes policy schema rs =
      (rs.filter (fun r => passes policy r schema),
       rs.filter (fun r => !passes policy r schema)) := by
  induction rs with
  | nil => rfl
  | cons r rs ih =>
      unfold filterRecordsFile
      rw [ih]
      by_cases hp : passes policy r schema = true <;>
        simp [List.filter_cons, hp]

/-- The file loop of `read_records` concatenates, in file order, each file's
parser output filtered by the validation predicate (and the diagnostics of
the dropped records). -/
theorem readLoop_eq (passes : String → Record → Schema → Bool)
    (parse : RemoteFile → List Record) (policy : String) (schema : Schema)
    (files : List RemoteFile) :
    readLoop passes parse policy schema files =
      ((files.map (fun f => (parse f).filter (fun r => passes policy r schema))).flatten,
       (files.map (fun f => (parse f).filter (fun r => !passes policy r schema))).flatten) := by
  induction files with
  | nil => rfl
  | cons f fs ih =>
      unfold readLoop
      rw [filterRecordsFile_eq, ih]
      simp

/-- A `get_json_schema` call that returned `.ok s` leaves `s` memoized in the
resulting instance state. -/
theorem get_json_schema_ok_sets_cache
    (conv : List (String × String) → Schema) (merge : Schema → Schema → Schema)
    (parsers : FileType → FileTypeParser) (readerFiles : List RemoteFile)
    (st : FileBasedStream) (s : Schema)
    (h : (get_json_schema conv merge parsers readerFiles st).1 = .ok s) :
    (get_json_schema conv merge parsers readerFiles st).2.jsonSchemaCache = some s := by
  unfold get_json_schema at h ⊢
  split at h
  · rename_i s0 heq
    rw [heq]
    dsimp only at h ⊢
    simp only [Except.ok.injEq] at h
    rw [h]
  · rename_i heq
    split at h
    · rename_i htr
      rw [if_pos htr]
      dsimp only at h ⊢
      simp only [Except.ok.injEq] at h
      rw [h]
    · rename_i htr
      rw [if_neg htr]
      dsimp only at h ⊢
      split at h
      · rename_i e heq2
        simp at h
      · rename_i s' heq2
        dsimp only at h ⊢
        simp only [Except.ok.injEq] at h
        rw [h]

/-! Claim theorems. -/

/-- C1: the claim says at most `n_concurrent_requests` per-file inference
operations are ever simultaneously in flight.  The launch loop of
`_infer_schema` tops the in-flight set up while
`len(pending_tasks) <= n_concurrent_requests`, so with bound 1 and two files
both tasks are launched before the first `asyncio.wait`: the peak in-flight
count evaluates to 2, exceeding the bound. -/
theorem inferSchema_peak_exceeds_bound :
    (inferSchemaRun 1 mergeKeep (fun _ => .ok []) [fileA, fileB]).2 = 2 ∧
    ¬ (inferSchemaRun 1 mergeKeep (fun _ => .ok []) [fileA, fileB]).2 ≤ 1 := by
  decide

/-- C4: the claim says `read_records` with no schema available raises
`MissingSchemaError` and yields zero records.  But `__init__` sets
`_catalog_schema = {}` (not `None`), so on a freshly constructed stream the
`is None` check never fires: `read_records` proceeds against the empty
schema and yields the parsed record. -/
theorem read_records_fresh_stream_yields_records :
    mkFileBasedStream parseOkConfig [] policyOne = .ok (freshStream cfgCsv policyOne) ∧
    read_records parsersA passesAll [fileA] (fun _ _ => true)
        (freshStream cfgCsv policyOne) none =
      .ok ([[("a", "1")]], []) :=
  ⟨rfl, rfl⟩

/-- C6: the claim says a cursor instant `T` restricts the sync to files
modified at or after `T`.  But `_get_datetime_from_stream_state` is an
unimplemented TODO returning `None`, so `list_files_for_this_sync` passes no
lower bound to the reader: with cursor 10 and files modified at 9, 10 and 11
all three files are returned, including the one at 9 < 10. -/
theorem list_files_for_this_sync_ignores_cursor :
    list_files_for_this_sync [fileA, fileB, fileC] (fun _ _ => true)
        (freshStream cfgCsv policyOne) (some { start := some 10 }) =
      [fileA, fileB, fileC] ∧
    fileA.last_modified < 10 :=
  ⟨rfl, by decide⟩

/-- C10: on the empty file list, `_infer_schema` returns the empty schema
`{}` for any policy with at least one allowed concurrent request, launching
no per-file task (peak in-flight count 0) and raising nothing. -/
theorem infer_schema_empty_files (n : Nat) (merge : Schema → Schema → Schema)
    (parserInfer : RemoteFile → Except String Schema) (_h : 1 ≤ n) :
    inferSchemaRun n merge parserInfer [] = (.ok [], 0) :=
  rfl

/-- C10 witness: the empty-file run evaluated at bound 1. -/
theorem infer_schema_empty_files_witness :
    1 ≤ 1 ∧ inferSchemaRun 1 mergeKeep (fun _ => .ok []) [] = (.ok [], 0) :=
  ⟨by decide, infer_schema_empty_files 1 mergeKeep (fun _ => .ok []) (by decide)⟩

/-- C9: `__init__` wraps every failure of the `FileBasedStreamConfig`
constructor in a `ConfigValidationError` and constructs no stream state in
that case; on a well-formed input the stream is fully constructed with the
parsed config and the initial instance state. -/
theorem mk_stream_config_validation
    (parseConfig : RawConfig → Except String FileBasedStreamConfig)
    (raw : RawConfig) (policy : AbstractDiscoveryPolicy) :
    (∀ e, parseConfig raw = .error e →
      mkFileBasedStream parseConfig raw policy =
        .error "Error creating stream config object.") ∧
    (∀ cfg, parseConfig raw = .ok cfg →
      mkFileBasedStream parseConfig raw policy = .ok (freshStream cfg policy)) := by
  constructor
  · intro e he
    unfold mkFileBasedStream
    rw [he]
  · intro cfg hc
    unfold mkFileBasedStream
    rw [hc]
    rfl

/-- C9 witness: a failing constructor yields the `ConfigValidationError`
message; a succeeding one yields the constructed stream. -/
theorem mk_stream_config_validation_witness :
    parseBadConfig [] = .error "1 validation error for FileBasedStreamConfig" ∧
    mkFileBasedStream parseBadConfig [] policyOne =
      .error "Error creating stream config object." ∧
    mkFileBasedStream parseOkConfig [] policyOne = .ok (freshStream cfgCsv policyOne) :=
  ⟨rfl,
   (mk_stream_config_validation parseBadConfig [] policyOne).1 _ rfl,
   (mk_stream_config_validation parseOkConfig [] policyOne).2 cfgCsv rfl⟩

/-- C7 counterexample: the claim says any configured user-declared input
schema short-circuits `get_json_schema`.  The code tests Python truthiness,
so a declared but empty input schema `{}` falls through: on such a
configuration the inference path runs (the inference-run counter becomes 1)
and the returned schema is the inferred one, not the conversion of the
declared empty mapping. -/
theorem get_json_schema_empty_declared_schema_not_short_circuited :
    (freshStream cfgEmptyInput policyOne).config.input_schema = some [] ∧
    (get_json_schema convId mergeKeep parsersA [fileA]
        (freshStream cfgEmptyInput policyOne)).2.nInferRuns = 1 ∧
    (get_json_schema convId mergeKeep parsersA [fileA]
        (freshStream cfgEmptyInput policyOne)).1 = .ok [("a", "string")] ∧
    convId [] = [] :=
  ⟨rfl, rfl, rfl, rfl⟩

/-- C7 (amended): whenever the configuration carries a non-empty user-declared
input schema, an uncached `get_json_schema` call returns that schema
converted by `type_mapping_to_jsonschema` immediately; the instance state
changes only by memoizing the result — in particular no file listing and no
parser inference happens (reader and inference counters are untouched). -/
theorem get_json_schema_nonempty_declared_schema_short_circuits
    (conv : List (String × String) → Schema) (merge : Schema → Schema → Schema)
    (parsers : FileType → FileTypeParser) (readerFiles : List RemoteFile)
    (st : FileBasedStream) (m : List (String × String))
    (h1 : st.jsonSchemaCache = none) (h2 : st.config.input_schema = some m)
    (h3 : m ≠ []) :
    get_json_schema conv merge parsers readerFiles st =
      (.ok (conv m), { st with jsonSchemaCache := some (conv m) }) := by
  unfold get_json_schema
  rw [h1, h2]
  have ht : inputSchemaTruthy (some m) = true := by
    unfold inputSchemaTruthy
    simp [h3]
  simp [ht]

/-- C7 witness: a fresh stream declaring `{x: string}` returns its conversion
at once and only gains the memoized value. -/
theorem get_json_schema_nonempty_declared_schema_short_circuits_witness :
    (freshStream cfgDeclared policyOne).jsonSchemaCache = none ∧
    (freshStream cfgDeclared policyOne).config.input_schema = some [("x", "string")] ∧
    get_json_schema convId mergeKeep parsersA [fileA] (freshStream cfgDeclared policyOne) =
      (.ok [("x", "string")],
       { freshStream cfgDeclared policyOne with jsonSchemaCache := some [("x", "string")] }) :=
  ⟨rfl, rfl,
   get_json_schema_nonempty_declared_schema_short_circuits convId mergeKeep parsersA
     [fileA] (freshStream cfgDeclared policyOne) [("x", "string")] rfl rfl (by decide)⟩

/-- C5: when a schema is available, `read_records` returns exactly the
concatenation, in file-listing order, of each file's parser output filtered
by the validation predicate; every dropped record produces one diagnostic
entry (in the same order), and passing records are yielded unchanged. -/
theorem read_records_validation_filtering
    (parsers : FileType → FileTypeParser) (passes : String → Record → Schema → Bool)
    (catalog : List RemoteFile) (globMatch : List String → RemoteFile → Bool)
    (st : FileBasedStream) (streamState : Option StreamState) (schema : Schema)
    (h : st.catalogSchema = some schema) :
    read_records parsers passes catalog globMatch st streamState =
      .ok (((list_files_for_this_sync catalog globMatch st streamState).map
              (fun f => ((parsers st.config.file_type).parse_records f).filter
                (fun r => passes st.config.validation_policy r schema))).flatten,
           ((list_files_for_this_sync catalog globMatch st streamState).map
              (fun f => ((parsers st.config.file_type).parse_records f).filter
                (fun r => !passes st.config.validation_policy r schema))).flatten) := by
  simp only [read_records, h]
  rw [readLoop_eq]

/-- C5 witness: a concrete run with one file whose single record passes. -/
theorem read_records_validation_filtering_witness :
    (freshStream cfgCsv policyOne).catalogSchema = some [] ∧
    read_records parsersA passesAll [fileB] (fun _ _ => true)
        (freshStream cfgCsv policyOne) none =
      .ok ([[("a", "1")]], []) :=
  ⟨rfl, by
    rw [read_records_validation_filtering parsersA passesAll [fileB] (fun _ _ => true)
        (freshStream cfgCsv policyOne) none [] rfl]
    rfl⟩

/-- C8: if a `get_json_schema` call returned a schema, the next call on the
resulting instance state returns the very same schema with the state
unchanged, and re-invokes neither the file listing (reader counter) nor any
parser inference (inference-run counter): the value is memoized. -/
theorem get_json_schema_memoized
    (conv : List (String × String) → Schema) (merge : Schema → Schema → Schema)
    (parsers : FileType → FileTypeParser) (readerFiles : List RemoteFile)
    (st : FileBasedStream) (s : Schema)
    (h : (get_json_schema conv merge parsers readerFiles st).1 = .ok s) :
    get_json_schema conv merge parsers readerFiles
        (get_json_schema conv merge parsers readerFiles st).2 =
      (.ok s, (get_json_schema conv merge parsers readerFiles st).2) ∧
    (get_json_schema conv merge parsers readerFiles
        (get_json_schema conv merge parsers readerFiles st).2).2.nReaderCalls =
      (get_json_schema conv merge parsers readerFiles st).2.nReaderCalls ∧
    (get_json_schema conv merge parsers readerFiles
        (get_json_schema conv merge parsers readerFiles st).2).2.nInferRuns =
      (get_json_schema conv merge parsers readerFiles st).2.nInferRuns := by
  have hcache := get_json_schema_ok_sets_cache conv merge parsers readerFiles st s h
  generalize hst1 : (get_json_schema conv merge parsers readerFiles st).2 = st1
  rw [hst1] at hcache
  have h2 : get_json_schema conv merge parsers readerFiles st1 = (.ok s, st1) := by
    unfold get_json_schema
    rw [hcache]
  exact ⟨h2, by rw [h2], by rw [h2]⟩

/-- C8 witness: on a fresh stream with a declared schema, a first call
computes and a second call returns the memoized value with counters
unchanged. -/
theorem get_json_schema_memoized_witness :
    (get_json_schema convId mergeKeep parsersA [fileB]
        (freshStream cfgDeclared policyOne)).1 = .ok [("x", "string")] ∧
    get_json_schema convId mergeKeep parsersA [fileB]
        (get_json_schema convId mergeKeep parsersA [fileB]
          (freshStream cfgDeclared policyOne)).2 =
      (.ok [("x", "string")],
       (get_json_schema convId mergeKeep parsersA [fileB]
          (freshStream cfgDeclared policyOne)).2) :=
  ⟨rfl,
   (get_json_schema_memoized convId mergeKeep parsersA [fileB]
      (freshStream cfgDeclared policyOne) [("x", "string")] rfl).1⟩

/-- Refilling never drops or invents work: in-flight queue and unstarted
files together are a rearrangement-free split of the originals. -/
theorem refill_append (n : Nat) :
    ∀ remaining pending,
      (refill n pending remaining).1 ++ (refill n pending remaining).2 =
        pending ++ remaining := by
  intro remaining
  induction remaining with
  | nil =>
      intro pending
      simp [refill]
  | cons f fs ih =>
      intro pending
      unfold refill
      by_cases hl : pending.length ≤ n
      · rw [if_pos hl, ih (pending ++ [f])]
        simp
      · rw [if_neg hl]

/-- After refilling, the in-flight queue is non-empty whenever any work
exists. -/
theorem refill_fst_ne_nil (n : Nat) :
    ∀ remaining pending, pending ++ remaining ≠ [] →
      (refill n pending remaining).1 ≠ [] := by
  intro remaining
  induction remaining with
  | nil =>
      intro pending h
      simpa [refill] using h
  | cons f fs ih =>
      intro pending _h
      unfold refill
      by_cases hl : pending.length ≤ n
      · rw [if_pos hl]
        exact ih (pending ++ [f]) (by simp)
      · rw [if_neg hl]
        intro hnil
        simp only at hnil
        rw [hnil] at hl
        simp at hl

/-- The deterministic bounded-concurrency loop computes the same result as
the sequential fold of per-file results in launch order, given enough fuel
(one unit per task completion). -/
theorem inferLoopAux_fst_eq (n : Nat) (merge : Schema → Schema → Schema)
    (res : RemoteFile → Except String Schema) :
    ∀ fuel remaining pending base peak,
      remaining.length + pending.length ≤ fuel →
      (inferLoopAux n merge res fuel remaining pending base peak).1 =
        inferSequential merge res base (pending ++ remaining) := by
  intro fuel
  induction fuel with
  | zero =>
      intro remaining pending base peak hf
      have hr : remaining = [] := List.length_eq_zero.mp (by omega)
      have hp : pending = [] := List.length_eq_zero.mp (by omega)
      subst hr
      subst hp
      rfl
  | succ fuel ih =>
      intro remaining pending base peak hf
      by_cases hemp : (remaining.isEmpty && pending.isEmpty) = true
      · have := hemp
        simp only [Bool.and_eq_true, List.isEmpty_eq_true] at this
        obtain ⟨hr, hp⟩ := this
        subst hr
        subst hp
        rfl
      · unfold inferLoopAux
        rw [if_neg hemp]
        dsimp only
        rcases hrp : refill n pending remaining with ⟨p', r'⟩
        have happ : p' ++ r' = pending ++ remaining := by
          have := refill_append n remaining pending
          rw [hrp] at this
          exact this
        have hne : p' ≠ [] := by
          have hwork : pending ++ remaining ≠ [] := by
            intro hcontra
            rcases List.append_eq_nil.mp hcontra with ⟨h1, h2⟩
            rw [h1, h2] at hemp
            simp at hemp
          have := refill_fst_ne_nil n remaining pending hwork
          rw [hrp] at this
          exact this
        dsimp only
        cases p' with
        | nil => exact absurd rfl hne
        | cons t rest =>
            have hlist : pending ++ remaining = t :: (rest ++ r') := by
              rw [← happ]
              simp
            dsimp only
            rw [hlist]
            unfold inferSequential
            cases hres : res t with
            | error e => rfl
            | ok s =>
                dsimp only
                apply ih
                have hlen : rest.length + r'.length + 1 =
                    pending.length + remaining.length := by
                  have := congrArg List.length happ
                  simpa using this
                omega

/-- The sequential fold over per-file inference results fails, naming the
offending file's URI, as soon as any file's parser inference fails. -/
theorem inferSequential_error (merge : Schema → Schema → Schema)
    (parserInfer : RemoteFile → Except String Schema) :
    ∀ files base, (∃ f ∈ files, ∃ e, parserInfer f = .error e) →
      ∃ f ∈ files, (∃ e, parserInfer f = .error e) ∧
        inferSequential merge (inferFileSchema parserInfer) base files =
          .error ("Error inferring schema for file: " ++ f.uri) := by
  intro files
  induction files with
  | nil =>
      intro base h
      simp at h
  | cons g gs ih =>
      intro base h
      cases hres : parserInfer g with
      | error e =>
          refine ⟨g, by simp, ⟨e, hres⟩, ?_⟩
          unfold inferSequential inferFileSchema
          rw [hres]
      | ok s =>
          obtain ⟨f, hf, e, hfe⟩ := h
          have hf' : f ∈ gs := by
            rcases List.mem_cons.mp hf with hfg | hfgs
            · rw [hfg] at hfe
              rw [hfe] at hres
              cases hres
            · exact hfgs
          obtain ⟨f2, hf2, he2, heq2⟩ := ih (merge base s) ⟨f, hf', e, hfe⟩
          refine ⟨f2, List.mem_cons_of_mem g hf2, he2, ?_⟩
          unfold inferSequential inferFileSchema
          rw [hres]
          exact heq2

/-- C2: if the parser inference of any single file fails, the whole
`_infer_schema` call fails with a `SchemaInferenceError` whose message names
an offending file's URI, and no schema is returned (all-or-nothing): the
results of the remaining in-flight operations are discarded, never merged. -/
theorem infer_schema_fail_fast (n : Nat) (merge : Schema → Schema → Schema)
    (parserInfer : RemoteFile → Except String Schema) (files : List RemoteFile)
    (h : ∃ f ∈ files, ∃ e, parserInfer f = .error e) :
    ∃ f ∈ files, (∃ e, parserInfer f = .error e) ∧
      (inferSchemaRun n merge parserInfer files).1 =
        .error ("Error inferring schema for file: " ++ f.uri) := by
  have hb : (inferSchemaRun n merge parserInfer files).1 =
      inferSequential merge (inferFileSchema parserInfer) [] files := by
    unfold inferSchemaRun
    have hbase := inferLoopAux_fst_eq n merge (inferFileSchema parserInfer)
      files.length files [] [] 0 (by simp)
    simpa using hbase
  rw [hb]
  exact inferSequential_error merge parserInfer files [] h

/-- C2 witness: with two files of which the second fails to parse, the run
fails naming that file, returning no schema. -/
theorem infer_schema_fail_fast_witness :
    (∃ f ∈ [fileA, fileB], ∃ e, pInferBad f = .error e) ∧
    ∃ f ∈ [fileA, fileB], (∃ e, pInferBad f = .error e) ∧
      (inferSchemaRun 1 mergeKeep pInferBad [fileA, fileB]).1 =
        .error ("Error inferring schema for file: " ++ f.uri) :=
  ⟨⟨fileB, by simp, "malformed csv", rfl⟩,
   infer_schema_fail_fast 1 mergeKeep pInferBad [fileA, fileB]
     ⟨fileB, by simp, "malformed csv", rfl⟩⟩

/-- Inserting into the sorted list is a permutation of consing. -/
theorem insertDesc_perm (f : RemoteFile) : ∀ l, (insertDesc f l).Perm (f :: l) := by
  intro l
  induction l with
  | nil => exact List.Perm.refl _
  | cons g gs ih =>
      unfold insertDesc
      by_cases hc : f.last_modified < g.last_modified
      · rw [if_pos hc]
        exact List.Perm.trans (ih.cons g) (List.Perm.swap f g gs)
      · rw [if_neg hc]

/-- The descending sort permutes its input. -/
theorem sortDesc_perm : ∀ l : List RemoteFile, (sortDesc l).Perm l := by
  intro l
  induction l with
  | nil => exact List.Perm.refl _
  | cons f fs ih =>
      unfold sortDesc
      exact List.Perm.trans (insertDesc_perm f (sortDesc fs)) (ih.cons f)

/-- Insertion preserves the descending (non-strict) ordering. -/
theorem insertDesc_pairwise (f : RemoteFile) :
    ∀ l, l.Pairwise (fun a b => b.last_modified ≤ a.last_modified) →
      (insertDesc f l).Pairwise (fun a b => b.last_modified ≤ a.last_modified) := by
  intro l
  induction l with
  | nil =>
      intro _
      simp [insertDesc]
  | cons g gs ih =>
      intro hp
      rw [List.pairwise_cons] at hp
      obtain ⟨hg, hgs⟩ := hp
      unfold insertDesc
      by_cases hc : f.last_modified < g.last_modified
      · rw [if_pos hc, List.pairwise_cons]
        refine ⟨?_, ih hgs⟩
        intro b hb
        rcases List.mem_cons.mp ((insertDesc_perm f gs).mem_iff.mp hb) with h1 | h2
        · rw [h1]
          exact le_of_lt hc
        · exact hg b h2
      · rw [if_neg hc, List.pairwise_cons]
        refine ⟨?_, List.pairwise_cons.mpr ⟨hg, hgs⟩⟩
        intro b hb
        rcases List.mem_cons.mp hb with h1 | h2
        · rw [h1]
          exact not_lt.mp hc
        · exact le_trans (hg b h2) (not_lt.mp hc)

/-- The descending sort is sorted: later elements are never more recent. -/
theorem sortDesc_pairwise (l : List RemoteFile) :
    (sortDesc l).Pairwise (fun a b => b.last_modified ≤ a.last_modified) := by
  induction l with
  | nil => simp [sortDesc]
  | cons f fs ih =>
      unfold sortDesc
      exact insertDesc_pairwise f (sortDesc fs) ih

/-- Insertion splits the target list at one point and puts the new element
there. -/
theorem insertDesc_middle (f : RemoteFile) :
    ∀ l, ∃ t1 t2, l = t1 ++ t2 ∧ insertDesc f l = t1 ++ f :: t2 := by
  intro l
  induction l with
  | nil => exact ⟨[], [], rfl, rfl⟩
  | cons g gs ih =>
      by_cases hc : f.last_modified < g.last_modified
      · obtain ⟨t1, t2, h1, h2⟩ := ih
        refine ⟨g :: t1, t2, by simp [h1], ?_⟩
        unfold insertDesc
        rw [if_pos hc, h2]
        rfl
      · refine ⟨[], g :: gs, rfl, ?_⟩
        unfold insertDesc
        rw [if_neg hc]
        rfl

/-- Insertion preserves sublists of the target. -/
theorem sublist_insertDesc (f : RemoteFile) (s l : List RemoteFile) (h : s <+ l) :
    s <+ insertDesc f l := by
  obtain ⟨t1, t2, h1, h2⟩ := insertDesc_middle f l
  rw [h2]
  have hins : t1 ++ t2 <+ t1 ++ f :: t2 :=
    List.Sublist.append_left (List.sublist_cons_self f t2) t1
  exact List.Sublist.trans (h1 ▸ h) hins

/-- Inserting `x` places it before every element that is not strictly more
recent; in particular before every occurrence of a `y` no more recent than
`x`. -/
theorem pair_sublist_insertDesc (x y : RemoteFile)
    (hle : y.last_modified ≤ x.last_modified) :
    ∀ l, y ∈ l → [x, y] <+ insertDesc x l := by
  intro l
  induction l with
  | nil =>
      intro hy
      simp at hy
  | cons g gs ih =>
      intro hy
      unfold insertDesc
      by_cases hc : x.last_modified < g.last_modified
      · rw [if_pos hc]
        have hyg : y ≠ g := by
          intro he
          exact absurd hc (not_lt.mpr (he ▸ hle))
        have hygs : y ∈ gs := by
          rcases List.mem_cons.mp hy with h1 | h2
          · exact absurd h1 hyg
          · exact h2
        exact List.Sublist.cons g (ih hygs)
      · rw [if_neg hc]
        exact List.Sublist.cons₂ x (List.singleton_sublist.mpr hy)

/-- Stability of the descending sort: if `x` is listed before `y` and is at
least as recent, `x` stays before `y` after sorting. -/
theorem sortDesc_stable (x y : RemoteFile)
    (hle : y.last_modified ≤ x.last_modified) :
    ∀ l, [x, y] <+ l → [x, y] <+ sortDesc l := by
  intro l
  induction l with
  | nil =>
      intro h
      simp at h
  | cons g gs ih =>
      intro h
      unfold sortDesc
      cases h with
      | cons a h' => exact sublist_insertDesc g _ _ (ih h')
      | cons₂ a h' =>
          have hy : y ∈ sortDesc gs :=
            (sortDesc_perm gs).mem_iff.mpr (List.singleton_sublist.mp h')
          exact pair_sublist_insertDesc x y hle (sortDesc gs) hy

/-- In a duplicate-free list, a prefix that contains the later element of an
ordered pair also contains the earlier one. -/
theorem mem_take_of_pair_sublist (x y : RemoteFile) :
    ∀ (l : List RemoteFile) (k : Nat), l.Nodup → [x, y] <+ l →
      y ∈ l.take k → x ∈ l.take k := by
  intro l
  induction l with
  | nil =>
      intro k _ h _
      simp at h
  | cons g gs ih =>
      intro k hnd h hy
      cases k with
      | zero => simp at hy
      | succ k' =>
          rw [List.take_succ_cons] at hy ⊢
          cases h with
          | cons a h' =>
              rcases List.mem_cons.mp hy with h1 | h2
              · exfalso
                have hygs : y ∈ gs := h'.subset (by simp)
                rw [List.nodup_cons] at hnd
                exact hnd.1 (h1 ▸ hygs)
              · exact List.mem_cons_of_mem g
                  (ih k' (List.nodup_cons.mp hnd).2 h' h2)
          | cons₂ a h' => exact List.mem_cons_self x _

/-- C3: the sampling step of `get_json_schema`.  With `k` the policy's
`max_n_files_for_schema_inference`: when at most `k` files are listed the
listing is used unchanged; when more are listed, exactly `k` files are kept,
all taken from the listing, each kept file is at least as recent as every
file left out, and among files with equal `last_modified` the one listed
earlier by the catalog is preferred (Python's stable sort). -/
theorem select_files_latest_k (k : Nat) (files : List RemoteFile) :
    (files.length ≤ k → selectFilesForInference k files = files) ∧
    (k < files.length → (selectFilesForInference k files).length = k) ∧
    (∀ f ∈ selectFilesForInference k files, f ∈ files) ∧
    (∀ g ∈ selectFilesForInference k files, ∀ f ∈ files,
      f ∉ selectFilesForInference k files → f.last_modified ≤ g.last_modified) ∧
    (files.Nodup → ∀ x y, [x, y] <+ files →
      x.last_modified = y.last_modified →
      y ∈ selectFilesForInference k files → x ∈ selectFilesForInference k files) := by
  refine ⟨?_, ?_, ?_, ?_, ?_⟩
  · intro h
    unfold selectFilesForInference
    rw [if_neg (not_lt.mpr h)]
  · intro h
    unfold selectFilesForInference
    rw [if_pos h, List.length_take, (sortDesc_perm files).length_eq]
    exact Nat.min_eq_left (Nat.le_of_lt h)
  · intro f hf
    unfold selectFilesForInference at hf
    by_cases h : k < files.length
    · rw [if_pos h] at hf
      exact (sortDesc_perm files).mem_iff.mp
        ((List.take_sublist k (sortDesc files)).subset hf)
    · rw [if_neg h] at hf
      exact hf
  · intro g hg f hf hfn
    unfold selectFilesForInference at hg hfn
    by_cases h : k < files.length
    · rw [if_pos h] at hg hfn
      have hfs : f ∈ sortDesc files := (sortDesc_perm files).mem_iff.mpr hf
      have hfd : f ∈ (sortDesc files).drop k := by
        rw [← List.take_append_drop k (sortDesc files)] at hfs
        rcases List.mem_append.mp hfs with h1 | h2
        · exact absurd h1 hfn
        · exact h2
      have hpw := sortDesc_pairwise files
      rw [← List.take_append_drop k (sortDesc files)] at hpw
      exact (List.pairwise_append.mp hpw).2.2 g hg f hfd
    · rw [if_neg h] at hfn
      exact absurd hf hfn
  · intro hnd x y hxy hlm hy
    unfold selectFilesForInference at hy ⊢
    by_cases h : k < files.length
    · rw [if_pos h] at hy ⊢
      exact mem_take_of_pair_sublist x y (sortDesc files) k
        ((sortDesc_perm files).nodup_iff.mpr hnd)
        (sortDesc_stable x y (le_of_eq hlm.symm) files hxy) hy
    · rw [if_neg h] at hy ⊢
      exact hxy.subset (by simp)

/-- C3 witness: three files, two tied at the latest instant; the selection
keeps exactly the two most recent and, the tie being broken by listing
order, the tied file listed first is kept. -/
theorem select_files_latest_k_witness :
    (2 < ([fileB, fileA, fileD] : List RemoteFile).length ∧
      (selectFilesForInference 2 [fileB, fileA, fileD]).length = 2) ∧
    ([fileB, fileA, fileD] : List RemoteFile).Nodup ∧
    fileB ∈ selectFilesForInference 2 [fileB, fileA, fileD] :=
  ⟨⟨by decide, (select_files_latest_k 2 [fileB, fileA, fileD]).2.1 (by decide)⟩,
   by decide,
   (select_files_latest_k 2 [fileB, fileA, fileD]).2.2.2.2 (by decide) fileB fileD
     (List.Sublist.cons₂ fileB (List.Sublist.cons fileA
       (List.Sublist.cons₂ fileD List.Sublist.slnil)))
     (by decide) (by decide)⟩
